import Mathlib

/-!
Verification of the pma (Performance Monitor Analyzer) stanza-driven schema
engine, as a shallow embedding of `src/pma.c` (v 0.0.2).

Modelling conventions:
* C `double` values are modelled as `ℚ` (exact arithmetic on the same
  operations the source performs: `+`, `max`, `/`, `*`).
* C counters (`int` counts, row indices) are modelled as `Nat`; they are only
  ever incremented and compared in the source paths that matter here.
* A raw input line handed to a stanza reader is modelled after tokenizing and
  `atof` conversion as a `List ℚ` whose length is the token count (`numargs`).
  For ARRAY class data lines the first element stands for the device-name
  token `argtbl[0]`, which `read_array_stanza` never reads (the reshape is
  purely positional); only the list's length and its tail are used.
* Fixed-size C string buffers are modelled as `String` with exact equality
  (all names in play fit the 32-character buffers, so `strncmp`/`strncpy`
  truncation never triggers).
* File handles and `fprintf` output are modelled by returning the list of
  values/entries the source would write.
-/

namespace Pma

/-! ## Line tokenizer (`parse_input_line`, pma.c lines 247-287) -/

def WHITESPACE (c : Char) : Bool := c = ' ' || c = '\t' || c = '\n'

def QUOTECHAR : Char := '\''

def COMMENTCHAR : Char := '#'

/-- Embedding of the token-extraction loop of `parse_input_line`.  At each
token start the source first skips whitespace, stops at an unquoted
`COMMENTCHAR`, stops when `maxargs` tokens have been taken, and otherwise
extracts one (possibly quoted) token: a quoted token runs to the next quote
character or end of line, an unquoted token runs to the next whitespace.
The returned list holds the extracted tokens in order.  The `fuel` argument
only bounds the recursion depth so that the function is structural; every
step consumes at least one input character, so a fuel of the line's length
is never exhausted (`parse_input_line` supplies exactly that). -/
def tokenizeAux (maxargs : Nat) : Nat → List Char → Nat → List (List Char)
  | 0, _, _ => []
  | _+1, [], _ => []
  | fuel+1, c :: cs, argidx =>
    if WHITESPACE c then tokenizeAux maxargs fuel cs argidx
    else if c = COMMENTCHAR then []
    else if maxargs ≤ argidx then []
    else if c = QUOTECHAR then
      match cs with
      | [] => [[]]
      | c2 :: cs2 =>
        let tok := c2 :: cs2.takeWhile (fun ch => !(ch = QUOTECHAR))
        match cs2.dropWhile (fun ch => !(ch = QUOTECHAR)) with
        | [] => [tok]
        | _ :: rest2 => tok :: tokenizeAux maxargs fuel rest2 (argidx+1)
    else
      let tok := c :: cs.takeWhile (fun ch => !(WHITESPACE ch))
      match cs.dropWhile (fun ch => !(WHITESPACE ch)) with
      | [] => [tok]
      | _ :: rest2 => tok :: tokenizeAux maxargs fuel rest2 (argidx+1)

/-- `parse_input_line inputline argtbl maxargs`: returns the extracted tokens
(the source also reports their count, which is the length of this list). -/
def parse_input_line (line : List Char) (maxargs : Nat) : List (List Char) :=
  tokenizeAux maxargs line.length line 0

/-! ## Data model (`Device`, `Metric`, `Class` structs, pma.c lines 92-117) -/

structure Device where
  devicename : String
  number : Nat
  max : ℚ
  sum : ℚ
  scale : ℚ
  valuetbl : List ℚ
deriving DecidableEq

structure Metric where
  metricname : String
  number : Nat
  max : ℚ
  sum : ℚ
  devices : List Device
deriving DecidableEq

structure Class where
  classname : String
  classtype : Char
  startrow : Nat
  metrics : List Metric
deriving DecidableEq

def defDevice : Device := ⟨"", 0, 0, 0, 0, []⟩

def defMetric : Metric := ⟨"", 0, 0, 0, []⟩

def defClass : Class := ⟨"", 'V', 0, []⟩

/-- In-place update of the element at one index of a list (the identity when
the index is out of range), modelling a write through `devicetbl+deviceidx`. -/
def listUpd {α : Type} : List α → Nat → (α → α) → List α
  | [], _, _ => []
  | a :: l, 0, f => f a :: l
  | a :: l, n+1, f => a :: listUpd l n f

/-! ## Device registry (`add_device`, pma.c lines 503-542) -/

/-- A freshly added device: name saved, numeric fields zeroed, value buffer
`calloc`ed to `count` zero slots (pma.c lines 530-539). -/
def freshDevice (count : Nat) (devicename : String) : Device :=
  ⟨devicename, 0, 0, 0, 0, List.replicate count 0⟩

/-- Embedding of `add_device`: scan the metric's device table setting
`newdeviceflag` to false on a name match; if the flag survives, append a
fresh zero-initialized device (and bump `numdevices`, which this embedding
represents as `devices.length`). -/
def add_device (count : Nat) (m : Metric) (devicename : String) : Metric :=
  let newdeviceflag := m.devices.foldl
    (fun flag d => if d.devicename = devicename then false else flag) true
  if newdeviceflag then
    { m with devices := m.devices ++ [freshDevice count devicename] }
  else m

/-! ## Duplicate metric check (`check_metric_names`, pma.c lines 615-638) -/

/-- Embedding of the four nested index loops of `check_metric_names`: `true`
iff some two distinct (class index, metric index) positions carry equal
metric names — the condition on which the source prints a diagnostic and
calls `exit(1)`. -/
def check_metric_names (classes : List Class) : Bool :=
  (List.range classes.length).any fun c1 =>
    (List.range ((classes.getD c1 defClass).metrics.length)).any fun m1 =>
      (List.range classes.length).any fun c2 =>
        (List.range ((classes.getD c2 defClass).metrics.length)).any fun m2 =>
          (!(c1 = c2) || !(m1 = m2)) &&
          ((classes.getD c1 defClass).metrics.getD m1 defMetric).metricname
            = ((classes.getD c2 defClass).metrics.getD m2 defMetric).metricname

/-! ## Stanza readers (`read_vector_stanza` / `read_array_stanza`,
    pma.c lines 751-791 and 798-841) -/

/-- Update of the metric-level aggregates shared by both readers:
`number++`, `max = MAX(max, value)`, `sum += value`. -/
def updMetricAgg (m : Metric) (v : ℚ) : Metric :=
  { m with number := m.number + 1, max := max m.max v, sum := m.sum + v }

/-- Vector-reader device update (pma.c lines 771-775).  Note the source quirk
at line 773: the device maximum is taken against the *metric's* (already
updated) maximum, not the device's own. -/
def updVecDevice (d : Device) (newmetricmax v : ℚ) (rowidx : Nat) : Device :=
  { d with number := d.number + 1, max := max newmetricmax v, sum := d.sum + v,
           valuetbl := d.valuetbl.set rowidx v }

/-- One metric's update for one vector data row: metric aggregates plus the
single device `devicetbl[0]`. -/
def vecMetricStep (rowidx : Nat) (m : Metric) (v : ℚ) : Metric :=
  let m2 := updMetricAgg m v
  { m2 with devices :=
      match m2.devices with
      | [] => []
      | d :: rest => updVecDevice d m2.max v rowidx :: rest }

/-- One well-formed vector data row: if `rowidx >= startrow`, every metric is
updated with its field of the row (pma.c lines 763-778). -/
def vecProcessLine (startrow rowidx : Nat) (ms : List Metric) (vals : List ℚ) :
    List Metric :=
  if startrow ≤ rowidx then List.zipWith (vecMetricStep rowidx) ms vals else ms

/-- The `read_vector_stanza` line loop.  A line with exactly `nummetrics`
fields is processed; a blank/comment line (`numargs == 0`) ends the stanza; any
other line is logged as bad data — in every non-blank case `rowidx++` runs.
Returns the metrics and the final `rowidx` (used by the non-fatal row-count
check). -/
def vecStanzaAux (startrow : Nat) :
    List Metric → List (List ℚ) → Nat → List Metric × Nat
  | ms, [], rowidx => (ms, rowidx)
  | ms, vals :: rest, rowidx =>
    if vals.length = ms.length then
      vecStanzaAux startrow (vecProcessLine startrow rowidx ms vals) rest (rowidx+1)
    else if vals.length = 0 then (ms, rowidx)
    else vecStanzaAux startrow ms rest (rowidx+1)

/-- Array-reader device update (pma.c lines 818-822): `number++`,
`max = MAX(max, value)`, `sum += value`, and the value is stored in the
device's buffer at index `sample` (`rowidx / numdevices`). -/
def updArrDevice (d : Device) (v : ℚ) (sample : Nat) : Device :=
  { d with number := d.number + 1, max := max d.max v, sum := d.sum + v,
           valuetbl := d.valuetbl.set sample v }

/-- One metric's update for one array data row (pma.c lines 813-823): metric
aggregates, then the device at slot `rowidx % numdevices` stores the value at
sample index `rowidx / numdevices`. -/
def arrMetricStep (rowidx : Nat) (m : Metric) (v : ℚ) : Metric :=
  let nd := m.devices.length
  { metricname := m.metricname
    number := m.number + 1
    max := max m.max v
    sum := m.sum + v
    devices := listUpd m.devices (rowidx % nd)
      (fun d => updArrDevice d v (rowidx / nd)) }

/-- The per-row metric loop of `read_array_stanza` (pma.c lines 810-827),
zipping the metrics with the value fields of the row: each metric whose
`rowidx / numdevices` has reached `startrow` is updated; at the first metric
where that fails the loop `break`s, leaving it and all later metrics
untouched. -/
def arrLineLoop (startrow rowidx : Nat) : List Metric → List ℚ → List Metric
  | [], _ => []
  | m :: ms, [] => m :: ms
  | m :: ms, v :: vs =>
    if startrow ≤ rowidx / m.devices.length then
      arrMetricStep rowidx m v :: arrLineLoop startrow rowidx ms vs
    else m :: ms

/-- The `read_array_stanza` line loop.  A line with exactly `nummetrics + 1`
fields is processed on its tail (the head is the unused device-name token); a
blank/comment line ends the stanza; other lines are logged — in every
non-blank case `rowidx++` runs.  The boolean tracks whether the C local
`metricptr` has been assigned (it is set by the metric loop of any processed
line when the class has at least one metric, and stays `NULL` otherwise). -/
def arrStanzaAux (startrow : Nat) :
    List Metric → List (List ℚ) → Nat → Bool → List Metric × Nat × Bool
  | ms, [], rowidx, touched => (ms, rowidx, touched)
  | ms, vals :: rest, rowidx, touched =>
    if vals.length = ms.length + 1 then
      arrStanzaAux startrow (arrLineLoop startrow rowidx ms vals.tail) rest
        (rowidx+1) (touched || decide (0 < ms.length))
    else if vals.length = 0 then (ms, rowidx, touched)
    else arrStanzaAux startrow ms rest (rowidx+1) touched

/-- The end-of-stanza row-count check of `read_array_stanza` (pma.c lines
836-840) evaluates `count*metricptr->numdevices`; this is a null-pointer
dereference exactly when `metricptr` was never assigned. -/
def arrStanzaDerefsNull (startrow : Nat) (ms : List Metric)
    (lines : List (List ℚ)) : Bool :=
  !(arrStanzaAux startrow ms lines 0 false).2.2

/-! ## Timestamp handling (`initialize_timestamp`, pma.c lines 466-493, and
    the per-DATE-block read of `read_inputfile`, pma.c lines 1176-1184).
    A data line after the `DATE:` marker is tokenized with `maxargs = 1`, so
    it yields either no token (blank/comment, modelled `none`) or exactly one
    token whose `atol` value is modelled as `some t`. -/

def initTsAux : List (Option ℤ) → ℤ → Nat → ℤ × Nat
  | [], t, n => (t, n)
  | none :: _, t, n => (t, n)
  | some v :: rest, _, n => initTsAux rest v (n+1)

/-- Embedding of `initialize_timestamp`: read timestamp lines until a blank
line or end of file, counting how often `firsttimestamp` was set; unless that
counter is exactly 1, the source prints a diagnostic and calls `exit(1)`
(modelled as `Except.error ()`). -/
def init_timestamp (lines : List (Option ℤ)) : Except Unit ℤ :=
  let r := initTsAux lines 0 0
  if r.2 = 1 then Except.ok r.1 else Except.error ()

/-- Embedding of the date handling of one `DATE` block inside
`read_inputfile`: exactly one line is read (`none` models `fgets` hitting end
of file, which ends the file loop); a line that does not parse into one
timestamp token is logged with `fprintf` and processing continues with the
previous timestamp.  No path of this source code aborts, hence the result is
always `Except.ok`. -/
def read_inputfile_date (line : Option (Option ℤ)) (prev : ℤ) : Except Unit ℤ :=
  match line with
  | some (some t) => Except.ok t
  | some none => Except.ok prev
  | none => Except.ok prev

/-! ## First-file phase order of `main` (pma.c lines 1371-1385) -/

inductive Event where
  | readTimeValues
  | readMetadata
  | readTimestamp
  | readDataStanza (classname : String)
  | abortDupMetric
  | aggregateStanza (classname : String)
deriving BEq, DecidableEq

/-- The order of input-consuming phases for the first input file in `main`:
`initialize_time_values`, `initialize_metadata`, `initialize_timestamp`, then
`initialize_classes` reads every class's data stanza once for device
discovery (and rewinds), then `check_metric_names` (which calls `exit(1)` on
a duplicate), and only then does `read_inputfile` aggregate the data
stanzas. -/
def mainFirstFileTrace (classes : List Class) : List Event :=
  [Event.readTimeValues, Event.readMetadata, Event.readTimestamp]
  ++ classes.map (fun c => Event.readDataStanza c.classname)
  ++ (if check_metric_names classes then [Event.abortDupMetric]
      else classes.map (fun c => Event.aggregateStanza c.classname))

def isDataRead : Event → Bool
  | Event.readDataStanza _ => true
  | _ => false

/-- `true` iff the trace aborts on a duplicate metric name and no data stanza
was read before that abort. -/
def abortsBeforeDataRead (tr : List Event) : Bool :=
  tr.contains Event.abortDupMetric &&
  (tr.takeWhile (fun e => !(e = Event.abortDupMetric))).all
    (fun e => !(isDataRead e))

/-! ## Output emitters (`output_singlefile_headers` pma.c lines 848-882,
    `output_singlefile_body` lines 889-946, `prepare_multi_output_files`
    lines 967-1027, `output_multifile_bodies_data` lines 1034-1081).
    All four share one loop skeleton: for every class and metric, visit
    `devicetbl[0]` for a VECTOR class and every device for an ARRAY class,
    and emit one entry when that device's scale is non-zero.  `emitLoop`
    is that skeleton.  (For a VECTOR metric with an empty device table the
    source would dereference a null `devicetbl`; device discovery always
    installs the single "None" device first.) -/

def emitLoop {α : Type} (emit : Class → Metric → Device → α)
    (classes : List Class) : List α :=
  classes.flatMap fun c =>
    c.metrics.flatMap fun m =>
      if c.classtype = 'V' then
        match m.devices with
        | [] => []
        | d :: _ => if d.scale ≠ 0 then [emit c m d] else []
      else
        m.devices.flatMap fun d => if d.scale ≠ 0 then [emit c m d] else []

/-- The name under which a series is emitted: the bare metric name for a
VECTOR class, `metric<sep>device` for an ARRAY class. -/
def seriesName (sep : String) (c : Class) (m : Metric) (d : Device) : String :=
  if c.classtype = 'V' then m.metricname
  else m.metricname ++ sep ++ d.devicename

/-- The wide-table header entries after the leading "Time" cell. -/
def output_singlefile_headers (sep : String) (classes : List Class) :
    List String :=
  emitLoop (fun c m d => seriesName sep c m d) classes

/-- One wide-table data row (after the timestamp cell): for each active
device one cell, `fullscale / scale * value` once `rowidx` has reached the
class's start row, and an empty cell (`none`) before that. -/
def output_singlefile_body_row (fullscale : ℚ) (classes : List Class)
    (rowidx : Nat) : List (Option ℚ) :=
  emitLoop (fun c _m d =>
    if c.startrow ≤ rowidx then
      some (fullscale / d.scale * d.valuetbl.getD rowidx 0)
    else none) classes

/-- The narrow (multi-file) output: one file per active device, carrying the
series name and, for every sample row at/after the class's start row, the
value `fullscale / scale * value` written by `output_multifile_bodies_data`. -/
def output_multifile_series (fullscale : ℚ) (count : Nat) (sep : String)
    (classes : List Class) : List (String × List ℚ) :=
  emitLoop (fun c m d =>
    (seriesName sep c m d,
     ((List.range count).filter (fun r => c.startrow ≤ r)).map
       (fun r => fullscale / d.scale * d.valuetbl.getD r 0))) classes

/-- One output series as the spec describes it (§4.6): a name, the owning
class's start row, the resolved scale factor and the stored raw buffer. -/
structure SeriesSpec where
  name : String
  startrow : Nat
  scale : ℚ
  buffer : List ℚ
deriving DecidableEq

def mkSeries (sep : String) (c : Class) (m : Metric) (d : Device) :
    SeriesSpec :=
  ⟨seriesName sep c m d, c.startrow, d.scale, d.valuetbl⟩

/-- Spec-side definition (§4.6/§4.7 wording): every series of the model, one
per vector metric and one per (array metric, device) pair, in model order. -/
def allSeries (sep : String) (classes : List Class) : List SeriesSpec :=
  classes.flatMap fun c =>
    c.metrics.flatMap fun m =>
      if c.classtype = 'V' then (m.devices.take 1).map (mkSeries sep c m)
      else m.devices.map (mkSeries sep c m)

/-- Spec-side definition: the series that are emitted at all — those whose
scale factor is non-zero ("a zero scale (the default) suppresses that series
from every output"). -/
def activeSeries (sep : String) (classes : List Class) : List SeriesSpec :=
  (allSeries sep classes).filter (fun s => s.scale ≠ 0)

/-! ## Per-file processing (`read_inputfile`, pma.c lines 1166-1208) -/

abbrev Stanza := List (List ℚ)

abbrev FileData := List Stanza

def read_vector_stanza (c : Class) (lines : Stanza) : Class :=
  { c with metrics := (vecStanzaAux c.startrow c.metrics lines 0).1 }

def read_array_stanza (c : Class) (lines : Stanza) : Class :=
  { c with metrics := (arrStanzaAux c.startrow c.metrics lines 0 false).1 }

def processStanza (c : Class) (lines : Stanza) : Class :=
  if c.classtype = 'V' then read_vector_stanza c lines
  else read_array_stanza c lines

/-- The per-class loop of one data-set cycle of `read_inputfile`: every class
is visited in declaration order; a class whose stanza is missing from the
file gets no data lines (`skip_to_stanza` with `mandatoryflag = 0` just runs
to end of file, so the stanza reader sees an immediate end of input). -/
def read_inputfile_classes : List Class → FileData → List Class
  | [], _ => []
  | c :: cs, [] => processStanza c [] :: read_inputfile_classes cs []
  | c :: cs, st :: sts => processStanza c st :: read_inputfile_classes cs sts

/-- Processing a sequence of input files (data-set cycles) in order, as the
`while (optind < argc)` loop of `main` does: aggregates accumulate across
files, buffers are overwritten in place. -/
def processFiles (classes : List Class) (files : List FileData) : List Class :=
  files.foldl read_inputfile_classes classes

/-- All values appearing on any line of any stanza of one input file. -/
def fileVals (f : FileData) : List ℚ :=
  (f.map (fun st => st.flatten)).flatten

/-! ## Accessors and state predicates used by the statements below -/

/-- The device at slot `k` of metric `i` (out-of-range indices yield the
default placeholder). -/
def devOf (ms : List Metric) (i k : Nat) : Device :=
  (ms.getD i defMetric).devices.getD k defDevice

/-- The stored value at sample slot `s` of device `k` of metric `i`. -/
def bufAt (ms : List Metric) (i k s : Nat) : ℚ :=
  (devOf ms i k).valuetbl.getD s 0

/-- The length of the value buffer of device `k` of metric `i`. -/
def bufLen (ms : List Metric) (i k : Nat) : Nat :=
  (devOf ms i k).valuetbl.length

/-- All metric- and device-level aggregates are zero, as `initialize_metadata`
and `add_device` leave them before any data is read. -/
def ZeroAgg (classes : List Class) : Prop :=
  ∀ c ∈ classes, ∀ m ∈ c.metrics,
    m.number = 0 ∧ m.max = 0 ∧ m.sum = 0 ∧
    ∀ d ∈ m.devices, d.number = 0 ∧ d.max = 0 ∧ d.sum = 0

/-- The device-table shape guaranteed by `initialize_classes`: every metric
has at least one discovered device, and a metric of a VECTOR class has
exactly the one synthetic "None" device. -/
def WFDeviceCounts (classes : List Class) : Prop :=
  ∀ c ∈ classes, ∀ m ∈ c.metrics,
    1 ≤ m.devices.length ∧ (c.classtype = 'V' → m.devices.length = 1)

/-- The aggregate coherence invariant relating a metric to its devices. -/
def metricAggInv (m : Metric) : Prop :=
  m.number = (m.devices.map Device.number).sum ∧
  m.sum = (m.devices.map Device.sum).sum ∧
  m.max = (m.devices.map Device.max).foldr max 0 ∧
  ∀ d ∈ m.devices, 0 ≤ d.max

/-! # Verified properties

First the generic lemmas about the small list helpers, then the
preservation lemmas for the stanza readers, then one theorem per claim. -/

theorem listUpd_length {α : Type} (f : α → α) :
    ∀ (l : List α) (k : Nat), (listUpd l k f).length = l.length := by
  intro l
  induction l with
  | nil => intro k; rfl
  | cons a l ih =>
    intro k
    cases k with
    | zero => rfl
    | succ k => simpa [listUpd] using ih k

theorem getD_listUpd_self {α : Type} (f : α → α) (d : α) :
    ∀ (l : List α) (k : Nat), k < l.length →
      (listUpd l k f).getD k d = f (l.getD k d) := by
  intro l
  induction l with
  | nil => intro k h; simp at h
  | cons a l ih =>
    intro k h
    cases k with
    | zero => simp [listUpd]
    | succ k =>
      simp only [listUpd, List.getD_cons_succ]
      exact ih k (by simpa using h)

theorem getD_listUpd_ne {α : Type} (f : α → α) (d : α) :
    ∀ (l : List α) (k j : Nat), ¬ k = j →
      (listUpd l k f).getD j d = l.getD j d := by
  intro l
  induction l with
  | nil => intro k j _; rfl
  | cons a l ih =>
    intro k j hkj
    cases k with
    | zero =>
      cases j with
      | zero => exact absurd rfl hkj
      | succ j => simp [listUpd]
    | succ k =>
      cases j with
      | zero => simp [listUpd]
      | succ j =>
        simp only [listUpd, List.getD_cons_succ]
        exact ih k j (fun h => hkj (by rw [h]))

theorem mem_listUpd {α : Type} (f : α → α) :
    ∀ (l : List α) (k : Nat) (a : α), a ∈ listUpd l k f →
      a ∈ l ∨ ∃ b ∈ l, a = f b := by
  intro l
  induction l with
  | nil => intro k a h; simp [listUpd] at h
  | cons x l ih =>
    intro k a h
    cases k with
    | zero =>
      rcases List.mem_cons.mp h with h | h
      · exact Or.inr ⟨x, List.mem_cons_self x l, h⟩
      · exact Or.inl (List.mem_cons_of_mem x h)
    | succ k =>
      rcases List.mem_cons.mp h with h | h
      · exact Or.inl (h ▸ List.mem_cons_self x l)
      · rcases ih k a h with h | ⟨b, hb, hfb⟩
        · exact Or.inl (List.mem_cons_of_mem x h)
        · exact Or.inr ⟨b, List.mem_cons_of_mem x hb, hfb⟩

theorem getD_set_self (l : List ℚ) (i : Nat) (v d : ℚ) (h : i < l.length) :
    (l.set i v).getD i d = v := by
  simp [List.getD_eq_getElem?_getD, List.getElem?_set_self, h]

theorem getD_set_ne (l : List ℚ) (i j : Nat) (v d : ℚ) (h : ¬ i = j) :
    (l.set i v).getD j d = l.getD j d := by
  simp [List.getD_eq_getElem?_getD, List.getElem?_set_ne h]

theorem foldrMax_nonneg : ∀ l : List ℚ, 0 ≤ l.foldr max 0 := by
  intro l
  induction l with
  | nil => simp
  | cons a l ih => exact le_max_of_le_right ih

theorem le_foldrMax : ∀ (l : List ℚ), ∀ x ∈ l, x ≤ l.foldr max 0 := by
  intro l
  induction l with
  | nil => intro x hx; simp at hx
  | cons a l ih =>
    intro x hx
    rcases List.mem_cons.mp hx with h | h
    · exact h ▸ le_max_left _ _
    · exact le_max_of_le_right (ih x h)

theorem foldrMax_mem : ∀ l : List ℚ, l ≠ [] → (∀ x ∈ l, 0 ≤ x) →
    l.foldr max 0 ∈ l := by
  intro l
  induction l with
  | nil => intro h _; exact absurd rfl h
  | cons a l ih =>
    intro _ hpos
    cases l with
    | nil =>
      simp only [List.foldr]
      rw [max_eq_left (hpos a (List.mem_cons_self a []))]
      exact List.mem_cons_self a []
    | cons b l2 =>
      rcases max_cases a ((b :: l2).foldr max 0) with ⟨he, _⟩ | ⟨he, _⟩
      · simp only [List.foldr] at he ⊢
        rw [he]; exact List.mem_cons_self a _
      · have hm := ih (by simp) (fun x hx => hpos x (List.mem_cons_of_mem a hx))
        simp only [List.foldr] at he ⊢
        rw [he]
        exact List.mem_cons_of_mem a hm

theorem foldrMax_all_zero : ∀ l : List ℚ, (∀ x ∈ l, x = 0) →
    l.foldr max 0 = 0 := by
  intro l
  induction l with
  | nil => intro _; rfl
  | cons a l ih =>
    intro h
    simp only [List.foldr]
    rw [h a (List.mem_cons_self a l), ih (fun x hx => h x (List.mem_cons_of_mem a hx)),
      max_self]

/-! ## C9: reachable null dereference in the array row-count check -/

/-- **C9.**  If an ARRAY class's data stanza contains zero well-formed data
lines — below, a stanza whose marker is immediately followed by a blank line,
and one cut short by end of file — `read_array_stanza` reaches its
end-of-stanza row-count check (pma.c lines 836-840) with the local
`metricptr` still `NULL`, and evaluating `count*metricptr->numdevices`
dereferences a null `Metric` pointer.  `arrStanzaDerefsNull` is `true`
exactly on the runs that reach the check with `metricptr` unassigned, and
both error branches are reachable in the embedding. -/
theorem c9_array_rowcount_null_deref :
    arrStanzaDerefsNull 1 [⟨"md", 0, 0, 0, [freshDevice 3 "d0"]⟩] [[]] = true ∧
    arrStanzaDerefsNull 1 [⟨"md", 0, 0, 0, [freshDevice 3 "d0"]⟩] [] = true ∧
    arrStanzaDerefsNull 1 [⟨"md", 0, 0, 0, [freshDevice 3 "d0"]⟩]
      [[99, 5], []] = false := by
  decide

/-! ## C8: device registration -/

theorem add_device_flag (devicename : String) :
    ∀ (l : List Device) (b : Bool),
      l.foldl (fun flag d => if d.devicename = devicename then false else flag) b
        = (b && l.all (fun d => !(d.devicename = devicename))) := by
  intro l
  induction l with
  | nil => intro b; simp
  | cons d l ih =>
    intro b
    simp only [List.foldl_cons, List.all_cons]
    rw [ih]
    by_cases h : d.devicename = devicename
    · simp [h]
    · simp [h, Bool.and_assoc]

/-- **C8.**  Device registration is idempotent per metric: `add_device` with
an already-registered name leaves the metric (device table, `numdevices`
count and all device state) unchanged, while a new name appends exactly one
fresh `Device` whose value buffer is `count` zero-filled slots. -/
theorem c8_add_device (count : Nat) (m : Metric) (devicename : String) :
    ((∃ d ∈ m.devices, d.devicename = devicename) →
      add_device count m devicename = m) ∧
    (¬ (∃ d ∈ m.devices, d.devicename = devicename) →
      add_device count m devicename
          = { m with devices := m.devices ++ [freshDevice count devicename] } ∧
        (add_device count m devicename).devices.length = m.devices.length + 1 ∧
        (add_device count m devicename).devices.getD m.devices.length defDevice
          = ⟨devicename, 0, 0, 0, 0, List.replicate count 0⟩) := by
  have hall : (m.devices.all (fun d => !(d.devicename = devicename)) = true)
      ↔ ¬ (∃ d ∈ m.devices, d.devicename = devicename) := by
    simp [List.all_eq_true]
  constructor
  · intro hex
    unfold add_device
    rw [add_device_flag]
    have hfalse : m.devices.all (fun d => !(d.devicename = devicename)) = false := by
      cases hfb : m.devices.all (fun d => !(d.devicename = devicename)) with
      | false => rfl
      | true => exact absurd hex (hall.mp hfb)
    simp [hfalse]
  · intro hnex
    have htrue := hall.mpr hnex
    have heq : add_device count m devicename
        = { m with devices := m.devices ++ [freshDevice count devicename] } := by
      unfold add_device
      rw [add_device_flag]
      simp [htrue]
    refine ⟨heq, ?_, ?_⟩
    · rw [heq]; simp
    · rw [heq]
      simp [freshDevice, List.getD_eq_getElem?_getD, List.getElem?_concat_length]

/-- Witness for `c8_add_device`: both branches applied at a concrete metric
with one registered device "sda" and buffer length 2. -/
theorem c8_add_device_witness :
    (add_device 2 ⟨"tps", 0, 0, 0, [freshDevice 2 "sda"]⟩ "sda"
        = ⟨"tps", 0, 0, 0, [freshDevice 2 "sda"]⟩) ∧
    add_device 2 ⟨"tps", 0, 0, 0, [freshDevice 2 "sda"]⟩ "sdb"
        = ⟨"tps", 0, 0, 0, [freshDevice 2 "sda", freshDevice 2 "sdb"]⟩ :=
  ⟨(c8_add_device 2 ⟨"tps", 0, 0, 0, [freshDevice 2 "sda"]⟩ "sda").1
      ⟨freshDevice 2 "sda", by decide, by decide⟩,
   ((c8_add_device 2 ⟨"tps", 0, 0, 0, [freshDevice 2 "sda"]⟩ "sdb").2
      (by decide)).1⟩

/-! ## C5: comment handling in the tokenizer -/

/-- **C5 (counterexample).**  The claim says no token returned by the
tokenizer contains or follows an unquoted '#', even mid-token.  On the line
"a#b c" the source keeps scanning an unquoted token up to whitespace without
re-checking for `COMMENTCHAR` (pma.c line 273), so it returns the token
"a#b" — which contains the unquoted '#' — followed by a further token
"c". -/
theorem c5_counterexample :
    parse_input_line "a#b c".toList 32 = [['a', '#', 'b'], ['c']] ∧
    COMMENTCHAR ∈ (parse_input_line "a#b c".toList 32).getD 0 [] ∧
    1 < (parse_input_line "a#b c".toList 32).length := by
  decide

/-- **C5 (amended).**  An unquoted '#' terminates tokenization only when it
occurs at the start of a token (at the start of the line or after skipped
whitespace): there `tokenizeAux` returns no further token.  A '#' in the
interior of a token is retained: a token starting with an ordinary character
`a` (neither whitespace, '#', nor a quote) extends to the next whitespace
regardless of any '#' inside it. -/
theorem c5_comment_at_token_start (maxargs fuel argidx : Nat) (cs rest : List Char)
    (a : Char) (ha : WHITESPACE a = false) (hc : ¬ a = COMMENTCHAR)
    (hq : ¬ a = QUOTECHAR) (hm : argidx < maxargs) :
    tokenizeAux maxargs fuel (COMMENTCHAR :: cs) argidx = [] ∧
    (tokenizeAux maxargs (fuel+1) (a :: rest) argidx).getD 0 []
      = a :: rest.takeWhile (fun ch => !(WHITESPACE ch)) := by
  constructor
  · cases fuel with
    | zero => rfl
    | succ fuel => simp [tokenizeAux, WHITESPACE, COMMENTCHAR]
  · have hm2 : ¬ maxargs ≤ argidx := by omega
    simp only [tokenizeAux, ha, Bool.false_eq_true, if_false, hc, hq, hm2, if_true]
    cases hdw : rest.dropWhile (fun ch => !(WHITESPACE ch)) with
    | nil => rfl
    | cons x rest2 => rfl

/-- Witness for `c5_comment_at_token_start` at the concrete line "a#b c":
the first returned token is "a#b", retaining the interior '#'. -/
theorem c5_comment_at_token_start_witness :
    tokenizeAux 32 5 (COMMENTCHAR :: "b c".toList) 0 = [] ∧
    (tokenizeAux 32 5 ('a' :: "#b c".toList) 0).getD 0 [] = ['a', '#', 'b'] :=
  c5_comment_at_token_start 32 4 0 "b c".toList "#b c".toList 'a'
    (by decide) (by decide) (by decide) (by decide)

/-! ## C6: timestamp handling -/

/-- **C6 (counterexample).**  The claim says that for each input file a DATE
block yielding zero timestamp lines is fatal.  That is enforced only by
`initialize_timestamp` on the first pass; inside `read_inputfile` (pma.c
lines 1176-1184) a DATE marker followed by a line that parses into zero
tokens merely logs "date error" and continues with the previous timestamp —
no path of that code aborts.  Here: blank data line after `DATE:`, previous
timestamp 42. -/
theorem c6_counterexample :
    read_inputfile_date (some none) 42 = Except.ok 42 ∧
    read_inputfile_date (some none) 42 ≠ Except.error () :=
  ⟨rfl, fun h => Except.noConfusion h⟩

/-- **C6 (amended).**  During initialization the first file's DATE block must
yield exactly one timestamp line — `initialize_timestamp` aborts (exit 1)
iff its set-counter differs from 1.  During per-file data processing,
`read_inputfile` reads exactly one line after each DATE marker and never
aborts: a malformed or missing line leaves the previous timestamp in place
with a logged error. -/
theorem c6_first_file_exactly_one_timestamp (lines : List (Option ℤ))
    (line : Option (Option ℤ)) (prev : ℤ) :
    (init_timestamp lines = Except.error () ↔ ¬ (initTsAux lines 0 0).2 = 1) ∧
    ∃ t : ℤ, read_inputfile_date line prev = Except.ok t := by
  constructor
  · unfold init_timestamp
    by_cases h : (initTsAux lines 0 0).2 = 1 <;> simp [h]
  · match line with
    | some (some t) => exact ⟨t, rfl⟩
    | some none => exact ⟨prev, rfl⟩
    | none => exact ⟨prev, rfl⟩

/-! ## C2: duplicate metric names -/

theorem check_metric_names_of_dup (classes : List Class) (i1 j1 i2 j2 : Nat)
    (hi1 : i1 < classes.length)
    (hj1 : j1 < (classes.getD i1 defClass).metrics.length)
    (hi2 : i2 < classes.length)
    (hj2 : j2 < (classes.getD i2 defClass).metrics.length)
    (hne : ¬ (i1 = i2 ∧ j1 = j2))
    (hname : ((classes.getD i1 defClass).metrics.getD j1 defMetric).metricname
           = ((classes.getD i2 defClass).metrics.getD j2 defMetric).metricname) :
    check_metric_names classes = true := by
  unfold check_metric_names
  rw [List.any_eq_true]
  refine ⟨i1, List.mem_range.mpr hi1, ?_⟩
  rw [List.any_eq_true]
  refine ⟨j1, List.mem_range.mpr hj1, ?_⟩
  rw [List.any_eq_true]
  refine ⟨i2, List.mem_range.mpr hi2, ?_⟩
  rw [List.any_eq_true]
  refine ⟨j2, List.mem_range.mpr hj2, ?_⟩
  simp only [Bool.and_eq_true, Bool.or_eq_true, Bool.not_eq_true',
    decide_eq_true_eq, decide_eq_false_iff_not]
  refine ⟨?_, hname⟩
  by_cases h : i1 = i2
  · exact Or.inr (fun hj => hne ⟨h, hj⟩)
  · exact Or.inl h

/-- **C2 (counterexample).**  The claim says a duplicate metric name aborts
before any data stanza of the input is read.  In `main` (pma.c lines
1371-1384) `check_metric_names` runs only after `initialize_classes` has
already read every class's data stanza of the first file for device
discovery (and after `initialize_timestamp` consumed the DATE stanza), so on
this metadata — two classes both declaring metric "x" — the trace reads data
stanzas before the duplicate-name abort. -/
theorem c2_counterexample :
    check_metric_names
      [⟨"c1", 'V', 0, [⟨"x", 0, 0, 0, []⟩]⟩,
       ⟨"c2", 'A', 0, [⟨"x", 0, 0, 0, []⟩]⟩] = true ∧
    abortsBeforeDataRead (mainFirstFileTrace
      [⟨"c1", 'V', 0, [⟨"x", 0, 0, 0, []⟩]⟩,
       ⟨"c2", 'A', 0, [⟨"x", 0, 0, 0, []⟩]⟩]) = false := by
  decide

/-- **C2 (amended).**  If two distinct metrics declared in the METADATA block
(in the same class or in different classes) have equal names, the first-file
pipeline aborts with exit code 1 (`Event.abortDupMetric`) before any data
stanza is *aggregated* — `read_inputfile` never runs, so no
`Event.aggregateStanza` occurs — although the device-discovery pass of
`initialize_classes` has already read the data stanzas once. -/
theorem c2_duplicate_metric_aborts (classes : List Class) (i1 j1 i2 j2 : Nat)
    (hi1 : i1 < classes.length)
    (hj1 : j1 < (classes.getD i1 defClass).metrics.length)
    (hi2 : i2 < classes.length)
    (hj2 : j2 < (classes.getD i2 defClass).metrics.length)
    (hne : ¬ (i1 = i2 ∧ j1 = j2))
    (hname : ((classes.getD i1 defClass).metrics.getD j1 defMetric).metricname
           = ((classes.getD i2 defClass).metrics.getD j2 defMetric).metricname) :
    Event.abortDupMetric ∈ mainFirstFileTrace classes ∧
    ∀ s, ¬ Event.aggregateStanza s ∈ mainFirstFileTrace classes := by
  have hchk := check_metric_names_of_dup classes i1 j1 i2 j2 hi1 hj1 hi2 hj2 hne hname
  unfold mainFirstFileTrace
  rw [hchk]
  constructor
  · simp
  · intro s
    simp

/-! ## C3: scale-driven suppression and normalization in both emitters -/

theorem seriesFilter_array {α : Type} (sep : String) (g : SeriesSpec → α)
    (c : Class) (m : Metric) :
    ∀ devices : List Device,
      (devices.flatMap fun d =>
          if d.scale ≠ 0 then [g (mkSeries sep c m d)] else [])
        = ((devices.map (mkSeries sep c m)).filter
            (fun s => s.scale ≠ 0)).map g := by
  intro devices
  induction devices with
  | nil => rfl
  | cons d rest ih =>
    simp only [List.flatMap_cons]
    rw [ih]
    simp only [List.map_cons, List.filter_cons, mkSeries]
    by_cases h : d.scale = 0
    · simp [h]
    · simp [h]

theorem seriesFilter_metric {α : Type} (sep : String) (g : SeriesSpec → α)
    (c : Class) (m : Metric) :
    (if c.classtype = 'V' then
        match m.devices with
        | [] => []
        | d :: _ => if d.scale ≠ 0 then [g (mkSeries sep c m d)] else []
      else m.devices.flatMap fun d =>
        if d.scale ≠ 0 then [g (mkSeries sep c m d)] else [])
    = ((if c.classtype = 'V' then (m.devices.take 1).map (mkSeries sep c m)
        else m.devices.map (mkSeries sep c m)).filter
          (fun s => s.scale ≠ 0)).map g := by
  by_cases hct : c.classtype = 'V'
  · simp only [hct, if_true]
    cases m.devices with
    | nil => rfl
    | cons d rest =>
      simp only [List.take_succ_cons, List.take_zero, List.map_cons,
        List.map_nil, List.filter_cons]
      by_cases h : d.scale = 0
      · simp [h, mkSeries]
      · simp [h, mkSeries]
  · simp only [hct, if_false]
    exact seriesFilter_array sep g c m m.devices

/-- All four emitter loops produce exactly one entry per *active* series —
the series list filtered to non-zero scales — in model order. -/
theorem emitLoop_eq_activeSeries {α : Type} (sep : String) (g : SeriesSpec → α)
    (classes : List Class) :
    emitLoop (fun c m d => g (mkSeries sep c m d)) classes
      = (activeSeries sep classes).map g := by
  unfold emitLoop activeSeries allSeries
  simp only [List.filter_flatMap, List.map_flatMap]
  refine congrArg (List.flatMap classes) (funext fun c => ?_)
  refine congrArg (List.flatMap c.metrics) (funext fun m => ?_)
  exact seriesFilter_metric sep g c m

/-- **C3.**  A zero scale factor (the default) suppresses a series from every
output — it contributes no wide-table header entry, no wide-table column and
no narrow file — and a non-zero scale `s` makes every emitted value of the
series equal `fullscale / s * v` for the stored raw value `v`: each of the
three emitter outputs equals the map of the corresponding per-series
emission over `activeSeries` (the series with non-zero scale), where the
wide-table row emits an empty cell (`none`) for samples before the class's
start row and the narrow file only contains samples at/after it. -/
theorem c3_scale_normalization (fullscale : ℚ) (sep : String)
    (classes : List Class) (rowidx count : Nat) :
    output_singlefile_headers sep classes
        = (activeSeries sep classes).map SeriesSpec.name ∧
    output_singlefile_body_row fullscale classes rowidx
        = (activeSeries sep classes).map (fun s =>
            if s.startrow ≤ rowidx then
              some (fullscale / s.scale * s.buffer.getD rowidx 0)
            else none) ∧
    output_multifile_series fullscale count sep classes
        = (activeSeries sep classes).map (fun s =>
            (s.name,
             ((List.range count).filter (fun r => s.startrow ≤ r)).map
               (fun r => fullscale / s.scale * s.buffer.getD r 0))) :=
  ⟨emitLoop_eq_activeSeries sep SeriesSpec.name classes,
   emitLoop_eq_activeSeries sep (fun s =>
     if s.startrow ≤ rowidx then
       some (fullscale / s.scale * s.buffer.getD rowidx 0)
     else none) classes,
   emitLoop_eq_activeSeries sep (fun s =>
     (s.name,
      ((List.range count).filter (fun r => s.startrow ≤ r)).map
        (fun r => fullscale / s.scale * s.buffer.getD r 0))) classes⟩

/-! ## C4: buffer overwriting across files

The vector half: one well-formed line at row `r` writes slot `r` of every
metric's single device; rows below the current row counter are never touched
again, so a stanza that covers a row determines that slot's final value. -/

theorem vecProcessLine_length (sr r : Nat) (ms : List Metric) (vals : List ℚ)
    (hlen : vals.length = ms.length) :
    (vecProcessLine sr r ms vals).length = ms.length := by
  unfold vecProcessLine
  by_cases h : sr ≤ r
  · simp [h, hlen]
  · simp [h]

theorem zipWith_vecStep_getD (r : Nat) :
    ∀ (ms : List Metric) (vs : List ℚ) (i : Nat), i < ms.length → i < vs.length →
      (List.zipWith (vecMetricStep r) ms vs).getD i defMetric
        = vecMetricStep r (ms.getD i defMetric) (vs.getD i 0) := by
  intro ms
  induction ms with
  | nil => intro vs i hi; simp at hi
  | cons m ms ih =>
    intro vs i hi hiv
    cases vs with
    | nil => simp at hiv
    | cons v vs =>
      cases i with
      | zero => simp
      | succ i =>
        simp only [List.zipWith_cons_cons, List.getD_cons_succ]
        exact ih vs i (by simpa using hi) (by simpa using hiv)

theorem vecStep_dev0_buflen (r : Nat) (m : Metric) (v : ℚ) :
    ((vecMetricStep r m v).devices.getD 0 defDevice).valuetbl.length
      = ((m.devices.getD 0 defDevice)).valuetbl.length := by
  cases hd : m.devices with
  | nil => simp [vecMetricStep, updMetricAgg, hd]
  | cons d rest => simp [vecMetricStep, updMetricAgg, updVecDevice, hd]

theorem vecStep_dev0_ne (r rr : Nat) (m : Metric) (v : ℚ) (hr : ¬ r = rr) :
    ((vecMetricStep r m v).devices.getD 0 defDevice).valuetbl.getD rr 0
      = ((m.devices.getD 0 defDevice)).valuetbl.getD rr 0 := by
  cases hd : m.devices with
  | nil => simp [vecMetricStep, updMetricAgg, hd]
  | cons d rest =>
    simp only [vecMetricStep, updMetricAgg, hd, List.getD_cons_zero]
    exact getD_set_ne _ _ _ _ _ hr

theorem vecStep_dev0_self (r : Nat) (m : Metric) (v : ℚ)
    (hlt : r < ((m.devices.getD 0 defDevice)).valuetbl.length) :
    ((vecMetricStep r m v).devices.getD 0 defDevice).valuetbl.getD r 0 = v := by
  cases hd : m.devices with
  | nil => rw [hd] at hlt; simp [defDevice] at hlt
  | cons d rest =>
    rw [hd] at hlt
    simp only [vecMetricStep, updMetricAgg, hd, List.getD_cons_zero] at hlt ⊢
    exact getD_set_self _ _ _ _ hlt

theorem vecProcessLine_buf_frame (sr r : Nat) (ms : List Metric) (vals : List ℚ)
    (i rr : Nat) (hlen : vals.length = ms.length) (hr : ¬ r = rr) :
    bufAt (vecProcessLine sr r ms vals) i 0 rr = bufAt ms i 0 rr := by
  unfold vecProcessLine
  by_cases h : sr ≤ r
  · simp only [h, if_true]
    by_cases hi : i < ms.length
    · unfold bufAt devOf
      rw [zipWith_vecStep_getD r ms vals i hi (by omega)]
      exact vecStep_dev0_ne r rr _ _ hr
    · have hL : (List.zipWith (vecMetricStep r) ms vals).getD i defMetric
          = defMetric :=
        List.getD_eq_default _ _ (by simp [hlen]; omega)
      have hR : ms.getD i defMetric = defMetric :=
        List.getD_eq_default _ _ (by omega)
      unfold bufAt devOf
      rw [hL, hR]
  · simp [h]

theorem vecProcessLine_buflen (sr r : Nat) (ms : List Metric) (vals : List ℚ)
    (i : Nat) (hlen : vals.length = ms.length) :
    bufLen (vecProcessLine sr r ms vals) i 0 = bufLen ms i 0 := by
  unfold vecProcessLine
  by_cases h : sr ≤ r
  · simp only [h, if_true]
    by_cases hi : i < ms.length
    · unfold bufLen devOf
      rw [zipWith_vecStep_getD r ms vals i hi (by omega)]
      exact vecStep_dev0_buflen r _ _
    · have hL : (List.zipWith (vecMetricStep r) ms vals).getD i defMetric
          = defMetric :=
        List.getD_eq_default _ _ (by simp [hlen]; omega)
      have hR : ms.getD i defMetric = defMetric :=
        List.getD_eq_default _ _ (by omega)
      unfold bufLen devOf
      rw [hL, hR]
  · simp [h]

theorem vecStanzaAux_frame (sr : Nat) :
    ∀ (lines : List (List ℚ)) (ms : List Metric) (r0 i rr : Nat), rr < r0 →
      bufAt (vecStanzaAux sr ms lines r0).1 i 0 rr = bufAt ms i 0 rr := by
  intro lines
  induction lines with
  | nil => intro ms r0 i rr _; rfl
  | cons vals rest ih =>
    intro ms r0 i rr hrr
    by_cases h1 : vals.length = ms.length
    · simp only [vecStanzaAux, h1, if_true]
      rw [ih (vecProcessLine sr r0 ms vals) (r0+1) i rr (by omega)]
      exact vecProcessLine_buf_frame sr r0 ms vals i rr h1 (by omega)
    · by_cases h2 : vals.length = 0
      · simp only [vecStanzaAux, if_neg h1, if_pos h2]
      · simp only [vecStanzaAux, if_neg h1, if_neg h2]
        exact ih ms (r0+1) i rr (by omega)

theorem vecStanza_overwrite (sr : Nat) :
    ∀ (lines : List (List ℚ)) (ms : List Metric) (r0 i rr : Nat),
      (∀ l ∈ lines, l.length = ms.length) → i < ms.length →
      sr ≤ rr → r0 ≤ rr → rr < r0 + lines.length → rr < bufLen ms i 0 →
      bufAt (vecStanzaAux sr ms lines r0).1 i 0 rr
        = (lines.getD (rr - r0) []).getD i 0 := by
  intro lines
  induction lines with
  | nil => intro ms r0 i rr _ _ _ _ hlt _; simp at hlt; omega
  | cons vals rest ih =>
    intro ms r0 i rr hwf hi hsr hr0 hlt hbuf
    have h1 : vals.length = ms.length := hwf vals (List.mem_cons_self _ _)
    simp only [vecStanzaAux, h1, if_true]
    by_cases heq : rr = r0
    · subst heq
      rw [vecStanzaAux_frame sr rest (vecProcessLine sr rr ms vals) (rr+1) i rr
        (by omega)]
      simp only [Nat.sub_self, List.getD_cons_zero]
      unfold vecProcessLine
      simp only [hsr, if_true]
      unfold bufAt devOf
      rw [zipWith_vecStep_getD rr ms vals i hi (by omega)]
      exact vecStep_dev0_self rr _ _ hbuf
    · have hgt : r0 + 1 ≤ rr := by omega
      have hlen2 : (vecProcessLine sr r0 ms vals).length = ms.length :=
        vecProcessLine_length sr r0 ms vals h1
      have hres := ih (vecProcessLine sr r0 ms vals) (r0+1) i rr
        (by
          intro l hl
          rw [hlen2]
          exact hwf l (List.mem_cons_of_mem _ hl))
        (by omega) hsr hgt
        (by simp only [List.length_cons] at hlt; omega)
        (by rw [vecProcessLine_buflen sr r0 ms vals i h1]; exact hbuf)
      rw [hres]
      have harith : rr - r0 = (rr - (r0+1)) + 1 := by omega
      rw [harith, List.getD_cons_succ]

/-! The array half: one well-formed line at physical row `r` writes sample
slot `r / numdevices` of device `r % numdevices` of each processed metric,
and touches no other (device, sample) cell. -/

theorem arrLineLoop_length (sr r : Nat) :
    ∀ (ms : List Metric) (vs : List ℚ), (arrLineLoop sr r ms vs).length = ms.length := by
  intro ms
  induction ms with
  | nil => intro vs; cases vs <;> rfl
  | cons m ms ih =>
    intro vs
    cases vs with
    | nil => rfl
    | cons v vs =>
      by_cases hc : sr ≤ r / m.devices.length
      · simp [arrLineLoop, hc, ih vs]
      · simp [arrLineLoop, hc]

theorem arrLineLoop_getD (sr r : Nat) :
    ∀ (ms : List Metric) (vs : List ℚ) (i : Nat), i < ms.length → i < vs.length →
      (∀ j, j ≤ i → sr ≤ r / (ms.getD j defMetric).devices.length) →
      (arrLineLoop sr r ms vs).getD i defMetric
        = arrMetricStep r (ms.getD i defMetric) (vs.getD i 0) := by
  intro ms
  induction ms with
  | nil => intro vs i hi; simp at hi
  | cons m ms ih =>
    intro vs i hi hiv hall
    cases vs with
    | nil => simp at hiv
    | cons v vs =>
      have hc : sr ≤ r / m.devices.length := by
        have := hall 0 (Nat.zero_le i)
        simpa using this
      simp only [arrLineLoop, hc, if_true]
      cases i with
      | zero => simp
      | succ i =>
        simp only [List.getD_cons_succ]
        refine ih vs i (by simpa using hi) (by simpa using hiv) ?_
        intro j hj
        have := hall (j+1) (Nat.succ_le_succ hj)
        simpa using this

theorem arrLineLoop_skip (sr r : Nat) :
    ∀ (ms : List Metric) (vs : List ℚ) (i j : Nat), j ≤ i →
      r / (ms.getD j defMetric).devices.length < sr →
      (arrLineLoop sr r ms vs).getD i defMetric = ms.getD i defMetric := by
  intro ms
  induction ms with
  | nil => intro vs i j _ _; cases vs <;> rfl
  | cons m ms ih =>
    intro vs i j hj hfail
    cases vs with
    | nil => cases i <;> rfl
    | cons v vs =>
      by_cases hc : sr ≤ r / m.devices.length
      · cases j with
        | zero =>
          exact absurd hc (by simpa using Nat.not_le.mpr hfail)
        | succ j =>
          cases i with
          | zero => exact absurd hj (by omega)
          | succ i =>
            simp only [arrLineLoop, hc, if_true, List.getD_cons_succ]
            exact ih vs i j (Nat.le_of_succ_le_succ hj) (by simpa using hfail)
      · simp only [arrLineLoop, hc, if_false]

/-- **C1.**  For a well-formed ARRAY data line (`nummetrics + 1` fields) at
physical row index `r`: for each metric of the class whose guard
`r / numdevices >= startrow` holds up to and including itself, the metric's
field is routed to device slot `r % numdevices` of that metric's own device
table — that device receives the aggregate update and stores the value in
its buffer at sample index `r / numdevices` — while as soon as one metric
has `r / numdevices < startrow`, that metric and all the remaining metrics
of the row are left untouched. -/
theorem c1_array_row_mapping (sr r : Nat) (ms : List Metric) (vals : List ℚ)
    (i : Nat) (hwf : vals.length = ms.length + 1) (hi : i < ms.length)
    (hall : ∀ j, j ≤ i → sr ≤ r / (ms.getD j defMetric).devices.length)
    (hnd : 0 < (ms.getD i defMetric).devices.length) :
    ((arrLineLoop sr r ms vals.tail).getD i defMetric).devices.getD
        (r % (ms.getD i defMetric).devices.length) defDevice
      = updArrDevice
          ((ms.getD i defMetric).devices.getD
            (r % (ms.getD i defMetric).devices.length) defDevice)
          (vals.getD (i+1) 0)
          (r / (ms.getD i defMetric).devices.length) ∧
    (r / (ms.getD i defMetric).devices.length
        < ((ms.getD i defMetric).devices.getD
            (r % (ms.getD i defMetric).devices.length) defDevice).valuetbl.length →
      bufAt (arrLineLoop sr r ms vals.tail) i
          (r % (ms.getD i defMetric).devices.length)
          (r / (ms.getD i defMetric).devices.length)
        = vals.getD (i+1) 0) ∧
    (∀ i2 j, j ≤ i2 → r / (ms.getD j defMetric).devices.length < sr →
      (arrLineLoop sr r ms vals.tail).getD i2 defMetric
        = ms.getD i2 defMetric) := by
  have htl : vals.tail.getD i 0 = vals.getD (i+1) 0 := by
    cases vals with
    | nil => simp at hwf
    | cons v vs => simp
  have hiv : i < vals.tail.length := by
    rw [List.length_tail, hwf]
    omega
  have h1 := arrLineLoop_getD sr r ms vals.tail i hi hiv hall
  have hmod : r % (ms.getD i defMetric).devices.length
      < (ms.getD i defMetric).devices.length := Nat.mod_lt r hnd
  have hA : ((arrLineLoop sr r ms vals.tail).getD i defMetric).devices.getD
      (r % (ms.getD i defMetric).devices.length) defDevice
      = updArrDevice
          ((ms.getD i defMetric).devices.getD
            (r % (ms.getD i defMetric).devices.length) defDevice)
          (vals.getD (i+1) 0)
          (r / (ms.getD i defMetric).devices.length) := by
    rw [h1, htl.symm]
    simp only [arrMetricStep]
    exact getD_listUpd_self _ defDevice _ _ hmod
  refine ⟨hA, ?_, fun i2 j hj hfail => arrLineLoop_skip sr r ms vals.tail i2 j hj hfail⟩
  intro hbuf
  unfold bufAt devOf
  rw [hA]
  simp only [updArrDevice]
  exact getD_set_self _ _ _ _ hbuf

/-- Witness for `c1_array_row_mapping`: one metric with two discovered
devices, start row 1, physical row 3 (sample 1, device slot 1), line
fields [99, 7] (device-name token plus one value). -/
theorem c1_array_row_mapping_witness :
    bufAt (arrLineLoop 1 3 [⟨"m", 0, 0, 0,
        [freshDevice 2 "a", freshDevice 2 "b"]⟩] [(99:ℚ), 7].tail) 0 1 1 = 7 :=
  (c1_array_row_mapping 1 3
    [⟨"m", 0, 0, 0, [freshDevice 2 "a", freshDevice 2 "b"]⟩] [(99:ℚ), 7] 0
    (by decide) (by decide)
    (fun j hj => by
      have h0 : j = 0 := Nat.le_zero.mp hj
      rw [h0]; decide)
    (by decide)).2.1 (by decide)

/-- Witness for `c2_duplicate_metric_aborts`: the duplicate "x" metadata. -/
theorem c2_duplicate_metric_aborts_witness :
    Event.abortDupMetric ∈ mainFirstFileTrace
      [⟨"c1", 'V', 0, [⟨"x", 0, 0, 0, []⟩]⟩,
       ⟨"c2", 'A', 0, [⟨"x", 0, 0, 0, []⟩]⟩] :=
  (c2_duplicate_metric_aborts
    [⟨"c1", 'V', 0, [⟨"x", 0, 0, 0, []⟩]⟩,
     ⟨"c2", 'A', 0, [⟨"x", 0, 0, 0, []⟩]⟩] 0 0 1 0
    (by decide) (by decide) (by decide) (by decide) (by decide) (by decide)).1

end Pma
